import Mathlib

/-!
Verification development for the `searchf` file-filtering application.

This file embeds, in Lean, the data model and the operations of the
`searchf` sources that the checked specification sentences talk about:

* `src/searchf/segments.py`: `Segment`, `merge`, `flatten`,
  `sort_and_merge`, `find_matching`, `iterate`;
* `src/searchf/models.py`: `Filter`, `apply_filters`, `SelectedLine`,
  `SelectedLineQueue`, `RawContent.filter`, `Offsets`;
* `src/searchf/views.py`: `TextView.push_keyword`.

Conventions of the embedding:

* Python machine-independent ints are `Nat`/`Int`; text positions are `Nat`.
* A Python `while` loop whose termination is not structural is given an
  explicit fuel argument that is provably larger than the number of
  iterations the loop can perform.
* The Python regular-expression engine (`re.finditer`, `re.compile`) is
  external to the repository, so it enters the embedding as an abstract
  `Matcher` parameter (keyword, text, ignore-case flag to the list of
  (start, end) spans, in scan order).  `literalMatcher` instantiates it
  for literal (meta-character free) keywords, with the documented
  `re.finditer` behaviour: leftmost, non-overlapping matches.
* The SGR escape-code processor (`sgr.Processor.filter`) is stateful; it
  enters `RawContent.filter` as an abstract state-threading function.
  `sgrNone` instantiates it with the exact behaviour of processing mode
  `SgrMode.NONE` (return the untouched line and no background segments).
* The Python field name `end` of `Segment` is a Lean keyword, so the
  field is called `stop` here.
-/

namespace Searchf

/-- Embeds `segments.Segment` (start inclusive, stop exclusive, attr is a
filter index or raw curses attributes). -/
structure Segment where
  start : Nat
  stop : Nat
  attr : Int
deriving DecidableEq

/-- Lexicographic strict order on `(start, stop, attr)`: how Python compares
`Segment` named tuples in `sorted(...)`. -/
def segLt (a b : Segment) : Prop :=
  a.start < b.start ∨
    (a.start = b.start ∧ (a.stop < b.stop ∨ (a.stop = b.stop ∧ a.attr < b.attr)))

instance (a b : Segment) : Decidable (segLt a b) := by
  unfold segLt; exact inferInstance

/-- Insert into a strictly `segLt`-sorted, duplicate-free list, skipping
elements already present. -/
def insertSeg (x : Segment) : List Segment → List Segment
  | [] => [x]
  | y :: ys =>
    if segLt x y then x :: y :: ys
    else if x = y then y :: ys
    else y :: insertSeg x ys

/-- Python `sorted(set(...))`: the strictly sorted list of the distinct
elements of the input. -/
def sortDedup (l : List Segment) : List Segment := l.foldr insertSeg []

/-- The merging loop of `segments.sort_and_merge`: walks the sorted segments
keeping a `pending` segment, fusing it with the next one whenever
`pending.end >= cur.start` (touching or overlapping). -/
def smLoop : Option Segment → List Segment → List Segment
  | none, [] => []
  | some p, [] => [p]
  | none, c :: cs => smLoop (some c) cs
  | some p, c :: cs =>
    if p.stop ≥ c.start then
      smLoop (some (Segment.mk p.start (max p.stop c.stop) c.attr)) cs
    else
      p :: smLoop (some c) cs

/-- Embeds `segments.sort_and_merge`: sort the (set of) segments, merge
touching or overlapping ones, and return the sorted result set. -/
def sort_and_merge (segs : List Segment) : List Segment :=
  sortDedup (smLoop none (sortDedup segs))

/-- Embeds the inner `while i_bnext < bot.end` loop of `segments.merge`:
consumes the top segments overlapping the current bottom segment `bot`,
starting at position `i`.  Returns the emitted segments and the remaining
top segments.  Each loop iteration either consumes one top segment or
strictly advances `i` and then consumes or exits, so `2 * tops.length + 2`
fuel is enough. -/
def mergeInner (fuel : Nat) (i : Nat) (bot : Segment) (tops : List Segment) :
    List Segment × List Segment :=
  match fuel with
  | 0 => ([], tops)
  | fuel + 1 =>
    if i ≥ bot.stop then ([], tops)
    else
      match tops with
      | [] => ([Segment.mk i bot.stop bot.attr], [])
      | t :: ts =>
        if t.start ≤ i then
          let r := mergeInner fuel t.stop bot ts
          (t :: r.1, r.2)
        else
          let e := min t.start bot.stop
          let r := mergeInner fuel e bot (t :: ts)
          (Segment.mk i e bot.attr :: r.1, r.2)

/-- Embeds the outer `while i_b < len(bottom)` loop of `segments.merge`.
Each iteration consumes a bottom or a top segment, so
`bottom.length + top.length + 1` fuel is enough. -/
def mergeOuter (fuel : Nat) (bottom top : List Segment) : List Segment :=
  match fuel with
  | 0 => []
  | fuel + 1 =>
    match bottom with
    | [] => top
    | b :: bs =>
      match top with
      | [] => b :: mergeOuter fuel bs []
      | t :: ts =>
        if t.stop ≤ b.start then t :: mergeOuter fuel (b :: bs) ts
        else if t.start ≥ b.stop then b :: mergeOuter fuel bs (t :: ts)
        else
          let r := mergeInner (2 * (t :: ts).length + 2) b.start b (t :: ts)
          r.1 ++ mergeOuter fuel bs r.2

/-- Embeds `segments.merge`: compose two layers of segments, the top layer
staying on top. -/
def merge (bottom top : List Segment) : List Segment :=
  mergeOuter (bottom.length + top.length + 1) bottom top

/-- Embeds `segments.flatten`: fold `merge` over the layers (the Python
function asserts the list of layers is non-empty; on `[]` we return `[]`). -/
def flatten (layers : List (List Segment)) : List Segment :=
  match layers with
  | [] => []
  | l :: ls => ls.foldl merge l

/-- Abstract interface of `re.finditer(keyword, text, flags)`: keyword, text
and ignore-case flag to the list of (start, end) spans of the matches, in
scan order. -/
abbrev Matcher : Type := String → String → Bool → List (Nat × Nat)

/-- Lower-cases a string character-wise (Python `str.lower` on ASCII). -/
def strLower (s : String) : String := String.mk (s.data.map Char.toLower)

/-- Scanning loop of `re.finditer` for a literal pattern: at each position,
if the pattern occurs there, report it and resume after it (one step ahead
for an empty pattern, like the `re` module after a zero-width match).
`pos` strictly increases at every step, so `text.length + 1` fuel is
enough. -/
def litScanAux (k text : List Char) : Nat → Nat → List (Nat × Nat)
  | 0, _ => []
  | fuel + 1, pos =>
    if pos > text.length then []
    else if k.isPrefixOf (text.drop pos) then
      (pos, pos + k.length) :: litScanAux k text fuel (pos + max k.length 1)
    else litScanAux k text fuel (pos + 1)

/-- Embeds `re.finditer` for a literal (meta-character free) pattern. -/
def litFinditer (k text : List Char) : List (Nat × Nat) :=
  litScanAux k text (text.length + 1) 0

/-- A concrete `Matcher`: literal keyword search, honouring the
ignore-case flag by lower-casing both sides (what `re.IGNORECASE` does to a
literal ASCII pattern). -/
def literalMatcher : Matcher := fun k text ic =>
  if ic then litFinditer (strLower k).data (strLower text).data
  else litFinditer k.data text.data

/-- The `for k in keywords` loop of `segments.find_matching`: `acc` is the
set of non-empty matches collected so far; bail out with `(False, [])` as
soon as one keyword has no non-empty match (zero-length matches are
discarded), else sort and merge everything collected. -/
def findMatchingAux (m : Matcher) (text : String) (ic : Bool) (attr : Int) :
    List String → List Segment → Bool × List Segment
  | [], acc => (true, sort_and_merge acc)
  | k :: ks, acc =>
    let occs := (m k text ic).filter (fun o => decide (o.1 < o.2))
    if occs.isEmpty then (false, [])
    else findMatchingAux m text ic attr ks
      (acc ++ occs.map (fun o => Segment.mk o.1 o.2 attr))

/-- Embeds `segments.find_matching` (the Python function asserts the keyword
list is non-empty). -/
def find_matching (m : Matcher) (text : String) (keywords : List String)
    (ic : Bool) (attr : Int) : Bool × List Segment :=
  findMatchingAux m text ic attr keywords []

/-- Embeds `segments.iterate`, which turns the window `[start, stop)` and the
highlighted segments into left-to-right draw commands
`(is_match, start, stop, attr)`.  Structured as one recursive function: the
`for` loop body over the current segment, the `break`/`return` exits, and
the final non-matching piece. -/
def iterate (start stop : Nat) (matching_segments : List Segment) :
    List (Bool × Nat × Nat × Int) :=
  match matching_segments with
  | [] => if start < stop then [(false, start, stop, -1)] else []
  | cur :: rest =>
    if start ≥ stop then []
    else if start ≥ cur.stop then iterate start stop rest
    else if stop < cur.start then [(false, start, stop, -1)]
    else
      let pre : List (Bool × Nat × Nat × Int) :=
        if start < cur.start then [(false, start, cur.start, -1)] else []
      let s1 := max start cur.start
      let m_end := min cur.stop stop
      let mid : List (Bool × Nat × Nat × Int) :=
        if s1 < m_end then [(true, s1, m_end, cur.attr)] else []
      pre ++ mid ++ iterate cur.stop stop rest

/-- Predicate `covers s pieces e`: `pieces` is an exact left-to-right,
contiguous, gap-free partition of the window `[s, e)` into non-empty
pieces. -/
def covers (s : Nat) : List (Bool × Nat × Nat × Int) → Nat → Bool
  | [], e => s == e
  | (_, a, b, _) :: rest, e => s == a && decide (a < b) && covers b rest e

/-- Embeds `models.Filter` (keywords are an insertion-ordered set: a Python
`dict` used as one).  The Python field `hiding` is a Lean keyword, so it is
called `hides` here. -/
structure Filter where
  ignore_case : Bool
  hides : Bool
  keywords : List String
deriving DecidableEq, Inhabited

/-- Whether a line matches a filter: the boolean part of
`segments.find_matching` on the filter's keywords (the attribute argument
does not influence it). -/
def lineMatches (m : Matcher) (line : String) (f : Filter) : Bool :=
  (find_matching m line f.keywords f.ignore_case 0).1

/-- The local variables of `models.apply_filters` that its filter loop
threads along. -/
structure AFAcc where
  first_show_idx : Int
  hide_count : Nat
  show_count : Nat
  segs : List (List Segment)
deriving Inhabited

/-- The `for fidx, f in enumerate(filters)` loop of `models.apply_filters`:
increments the hit count of every matching filter, counts hiding and
showing matches, collects the showing segments and the first showing
filter index. -/
def applyFiltersLoop (m : Matcher) (line : String) :
    List Filter → Nat → List Nat → AFAcc → List Nat × AFAcc
  | [], _, hits, acc => (hits, acc)
  | f :: fs, fidx, hits, acc =>
    let r := find_matching m line f.keywords f.ignore_case (Int.ofNat fidx)
    if r.1 then
      let hits1 := hits.set fidx (hits.getD fidx 0 + 1)
      if f.hides then
        applyFiltersLoop m line fs (fidx + 1) hits1
          (AFAcc.mk acc.first_show_idx (acc.hide_count + 1) acc.show_count acc.segs)
      else
        applyFiltersLoop m line fs (fidx + 1) hits1
          (AFAcc.mk (if acc.first_show_idx < 0 then Int.ofNat fidx else acc.first_show_idx)
            acc.hide_count (acc.show_count + 1) (acc.segs ++ [r.2]))
    else applyFiltersLoop m line fs (fidx + 1) hits acc

/-- Embeds `models.apply_filters`: returns `(shown, first matching showing
filter index or -1, segments)` together with the updated hit counters
(the Python function increments `hits` in place). -/
def apply_filters (m : Matcher) (line : String) (background : List Segment)
    (filters : List Filter) (hits : List Nat) :
    (Bool × Int × List Segment) × List Nat :=
  let r := applyFiltersLoop m line filters 0 hits (AFAcc.mk (-1) 0 0 [background])
  (if r.2.hide_count > 0 then (false, -1, background)
   else if r.2.show_count > 0 then (true, r.2.first_show_idx, flatten r.2.segs)
   else (true, -1, background), r.1)

/-- Embeds `enums.LineVisibility`. -/
inductive LineVisibility where
  | ONLY_MATCHING
  | CONTEXT_1
  | CONTEXT_2
  | CONTEXT_5
  | ALL
deriving DecidableEq

/-- Embeds `models.VISIBILITY_TO_SIZE`. -/
def VISIBILITY_TO_SIZE : LineVisibility → Int
  | .ONLY_MATCHING => 0
  | .CONTEXT_1 => 1
  | .CONTEXT_2 => 2
  | .CONTEXT_5 => 5
  | .ALL => -1

/-- Embeds `models.SelectedLine` (`line_index` is `-1` for a synthetic gap
marker, the horizontal ruler). -/
structure SelectedLine where
  line_index : Int
  filter_index : Int
  text : String
  segments : List Segment
deriving DecidableEq

/-- The synthetic gap-marker line `SelectedLine(RULER_INDEX, -1, '', [])`. -/
def rulerLine : SelectedLine := SelectedLine.mk (-1) (-1) "" []

/-- The mutable state of `models.SelectedLineQueue`. -/
structure QState where
  queue : List SelectedLine
  size : Int
  left : Int
  last_line_visible : Int
deriving DecidableEq

/-- Embeds `SelectedLineQueue.__init__` for a visibility mode. -/
def qInit (mode : LineVisibility) : QState :=
  QState.mk [] (VISIBILITY_TO_SIZE mode) 0 0

/-- Embeds `SelectedLineQueue._add`: append the line to the queue and report
whether the caller should flush; in bounded mode drop the oldest queued
line when over capacity. -/
def qAdd (q : QState) (sl : SelectedLine) : QState × Bool :=
  if q.size = 0 then (q, false)
  else
    let q1 := QState.mk (q.queue ++ [sl]) q.size q.left q.last_line_visible
    if q1.size < 0 then (q1, true)
    else if q1.left > 0 then
      (QState.mk q1.queue q1.size (q1.left - 1) q1.last_line_visible, true)
    else if (q1.queue.length : Int) > q1.size then
      (QState.mk (q1.queue.drop 1) q1.size q1.left q1.last_line_visible, false)
    else (q1, false)

/-- Embeds `SelectedLineQueue.add_matching`: flush the queued context lines,
preceded by a gap marker when they start strictly after the last visible
index plus one, then the matching line itself; rearm the below-context
counter. -/
def qAddMatching (q : QState) (sl : SelectedLine) : QState × List SelectedLine :=
  let queued := q.queue
  let marker : List SelectedLine :=
    match queued with
    | [] => []
    | first :: _ =>
      if first.line_index > q.last_line_visible then [rulerLine] else []
  (QState.mk [] q.size q.size (sl.line_index + 1), marker ++ queued ++ [sl])

/-- Embeds `SelectedLineQueue.add_non_matching`. -/
def qAddNonMatching (q : QState) (sl : SelectedLine) : QState × List SelectedLine :=
  let r := qAdd q sl
  if r.2 then
    (QState.mk [] r.1.size r.1.left (sl.line_index + 1), r.1.queue)
  else (r.1, [])

/-- Python `line.replace('\t', '    ')` of `RawContent.filter`. -/
def tabReplace (line : String) : String :=
  String.mk (line.data.foldr
    (fun c acc => if c = '\t' then ' ' :: ' ' :: ' ' :: ' ' :: acc else c :: acc) [])

/-- Embeds `sgr.Processor.filter` in mode `SgrMode.NONE`: return no background
segments and the untouched line; the processor state is `Unit`. -/
def sgrNone : Unit → String → List Segment × String × Unit :=
  fun _ line => ([], line, ())

/-- The `for i, line in enumerate(self._lines)` loop of
`models.RawContent.filter`, over lines already paired with their index.
`sgrF` abstracts the stateful `self._sgr.filter(line, sgr_mode)` call. -/
def rawFilterLoop {σ : Type} (m : Matcher)
    (sgrF : σ → String → List Segment × String × σ)
    (filters : List Filter) (line_min : Nat) :
    List (Nat × String) → σ → QState → List Nat → List SelectedLine × List Nat
  | [], _, _, hits => ([], hits)
  | (i, line) :: rest, s, q, hits =>
    if i < line_min then rawFilterLoop m sgrF filters line_min rest s q hits
    else
      let line1 := tabReplace line
      let sg := sgrF s line1
      let af := apply_filters m sg.2.1 sg.1 filters hits
      if af.1.1 then
        if af.1.2.1 ≥ 0 then
          let r := qAddMatching q (SelectedLine.mk i af.1.2.1 sg.2.1 af.1.2.2)
          let t := rawFilterLoop m sgrF filters line_min rest sg.2.2 r.1 af.2
          (r.2 ++ t.1, t.2)
        else
          let r := qAddNonMatching q (SelectedLine.mk i (-1) sg.2.1 af.1.2.2)
          let t := rawFilterLoop m sgrF filters line_min rest sg.2.2 r.1 af.2
          (r.2 ++ t.1, t.2)
      else rawFilterLoop m sgrF filters line_min rest sg.2.2 q af.2

/-- Embeds `models.RawContent.filter`: returns the selected lines and the
per-filter hit counts.  The line visibility mode is forced to `ALL` when no
filter is a showing filter. -/
def rawFilter {σ : Type} (m : Matcher)
    (sgrF : σ → String → List Segment × String × σ) (s0 : σ)
    (filters : List Filter) (line_min : Nat) (line_mode : LineVisibility)
    (lines : List String) : List SelectedLine × List Nat :=
  let hits : List Nat := filters.map (fun _ => 0)
  let mode := if filters.countP (fun f => !f.hides) > 0 then line_mode
    else LineVisibility.ALL
  rawFilterLoop m sgrF filters line_min lines.enum s0 (qInit mode) hits

/-- The selection the specification describes when every filter is a hiding
filter: every line (from `line_min` on) whose processed text is not matched
by a hiding filter is selected, in original order, with filter index `-1`
and its background segments; no gap marker is ever produced. -/
def allHidingSelection {σ : Type} (m : Matcher)
    (sgrF : σ → String → List Segment × String × σ)
    (filters : List Filter) (line_min : Nat) :
    σ → Nat → List String → List SelectedLine
  | _, _, [] => []
  | s, i, line :: rest =>
    if i < line_min then allHidingSelection m sgrF filters line_min s (i + 1) rest
    else
      let line1 := tabReplace line
      let sg := sgrF s line1
      if filters.any (fun f => f.hides && lineMatches m sg.2.1 f) then
        allHidingSelection m sgrF filters line_min sg.2.2 (i + 1) rest
      else
        SelectedLine.mk i (-1) sg.2.1 sg.1 ::
          allHidingSelection m sgrF filters line_min sg.2.2 (i + 1) rest

/-- Embeds the parts of `models.ViewConfig` that `push_keyword` touches. -/
structure ViewConfig where
  filters : List Filter
  dirty : Bool
deriving DecidableEq

/-- Embeds `ViewConfig.push_filter`. -/
def push_filter (c : ViewConfig) (f : Filter) : ViewConfig :=
  ViewConfig.mk (c.filters ++ [f]) true

/-- Applies a function to the last element of a list (used to modify the top
filter, `self._config.top_filter()`). -/
def modifyLast {α : Type} (g : α → α) : List α → List α
  | [] => []
  | [x] => [g x]
  | x :: y :: ys => x :: modifyLast g (y :: ys)

/-- Embeds `Filter.add`: a Python `dict` keeps an already present key at its
original position. -/
def addKeyword (f : Filter) (k : String) : Filter :=
  Filter.mk f.ignore_case f.hides
    (if k ∈ f.keywords then f.keywords else f.keywords ++ [k])

/-- Embeds `views.TextView.push_keyword` on the view configuration, with
`re.compile` success abstracted as the `valid` predicate (`_sync` is a pure
redisplay and does not touch the configuration). -/
def push_keyword (valid : String → Bool) (c : ViewConfig) (keyword : String)
    (new_filter : Bool) : ViewConfig × String :=
  if keyword.length ≤ 0 then (c, "No keyword added")
  else if !valid keyword then (c, "Invalid python regex pattern")
  else
    let nf := if !(c.filters.length > 0 : Bool) then true else new_filter
    let c1 := if nf then push_filter c (Filter.mk (strLower keyword == keyword) false []) else c
    let c2 := ViewConfig.mk (modifyLast (fun f => addKeyword f keyword) c1.filters) c1.dirty
    (c2, if nf then "New filter created" else "Keyword added")

/-- Embeds `models.Offsets` (the fields `_ymax` and `voffset_desc`; `voffset`
only ever holds clamped, non-negative values). -/
structure Offsets where
  hoffset : Nat
  voffset : Nat
  voffset_desc : String
  ymax : Nat
deriving DecidableEq

/-- Embeds `Offsets.__init__`. -/
def offsetsInit : Offsets := Offsets.mk 0 0 "" 0

/-- Embeds `Offsets.layout`: `self._ymax = max(0, content_lines_count -
available_height)` (truncated subtraction on `Nat`). -/
def Offsets.layout (o : Offsets) (available_height content_lines_count : Nat) :
    Offsets :=
  Offsets.mk o.hoffset o.voffset o.voffset_desc (content_lines_count - available_height)

/-- Embeds `Offsets.set_v_offset`: clamp, and store offset and descriptor
only when the clamped value differs from the stored one. -/
def Offsets.set_v_offset (o : Offsets) (offset : Int) : Offsets × Bool :=
  let od : Nat × String :=
    if offset ≥ (o.ymax : Int) then (o.ymax, "BOT")
    else if offset ≤ 0 then (0, "TOP")
    else (offset.toNat, toString (offset.toNat * 100 / o.ymax) ++ "%")
  if o.voffset = od.1 then (o, false)
  else (Offsets.mk o.hoffset od.1 od.2 o.ymax, true)

/-- The descriptor the (amended) specification predicts for a request
`offset` against a scroll range `[0, ymax]`: `TOP` at the minimum and `BOT`
at the maximum of a non-degenerate range, else the integer percentage of
the clamped offset; for a degenerate range (`ymax = 0`) the code reports
`BOT` for non-negative requests and `TOP` for negative ones. -/
def vDescSpec (ymax : Nat) (offset : Int) : String :=
  if ymax = 0 then (if 0 ≤ offset then "BOT" else "TOP")
  else if min ymax offset.toNat = 0 then "TOP"
  else if min ymax offset.toNat = ymax then "BOT"
  else toString (min ymax offset.toNat * 100 / ymax) ++ "%"

/-- Checks that consecutive segments of a list do not overlap (each one ends
no later than the next one starts). -/
def disjointSorted : List Segment → Bool
  | [] => true
  | [_] => true
  | a :: b :: rest => decide (a.stop ≤ b.start) && disjointSorted (b :: rest)

/-! ## Order lemmas for segment sorting -/

theorem segLt_irrefl (a : Segment) : ¬ segLt a a := by
  unfold segLt; omega

theorem segLt_total (a b : Segment) : segLt a b ∨ a = b ∨ segLt b a := by
  cases a; cases b
  simp only [segLt, Segment.mk.injEq]
  omega

theorem segLt_start_le {a b : Segment} (h : segLt a b) : a.start ≤ b.start := by
  unfold segLt at h; omega

theorem mem_insertSeg {x y : Segment} : ∀ {l : List Segment},
    y ∈ insertSeg x l ↔ y = x ∨ y ∈ l := by
  intro l
  induction l with
  | nil => simp [insertSeg]
  | cons z zs ih =>
    unfold insertSeg
    split_ifs with h1 h2
    · simp [List.mem_cons]
    · subst h2
      simp [List.mem_cons]
    · simp only [List.mem_cons, ih]
      tauto

theorem insertSeg_head {x : Segment} : ∀ {l : List Segment},
    (insertSeg x l).head? = some x ∨ (insertSeg x l).head? = l.head? := by
  intro l
  cases l with
  | nil => simp [insertSeg]
  | cons z zs =>
    unfold insertSeg
    split_ifs <;> simp

theorem chain'_insertSeg {x : Segment} : ∀ {l : List Segment},
    List.Chain' segLt l → List.Chain' segLt (insertSeg x l) := by
  intro l
  induction l with
  | nil => intro _; simp [insertSeg]
  | cons z zs ih =>
    intro h
    unfold insertSeg
    split_ifs with h1 h2
    · exact List.chain'_cons.2 ⟨h1, h⟩
    · exact h
    · have hz : segLt z x := by
        rcases segLt_total x z with ht | ht | ht
        · exact absurd ht h1
        · exact absurd ht h2
        · exact ht
      refine List.chain'_cons'.2 ⟨?_, ih h.tail⟩
      intro w hw
      rcases insertSeg_head (x := x) (l := zs) with hh | hh
      · rw [hh] at hw
        cases hw
        exact hz
      · rw [hh] at hw
        cases zs with
        | nil => cases hw
        | cons u us =>
          cases hw
          exact (List.chain'_cons.1 h).1

theorem chain'_sortDedup (l : List Segment) : List.Chain' segLt (sortDedup l) := by
  induction l with
  | nil => simp [sortDedup]
  | cons x xs ih => exact chain'_insertSeg ih

theorem mem_sortDedup {y : Segment} : ∀ {l : List Segment},
    y ∈ sortDedup l ↔ y ∈ l := by
  intro l
  induction l with
  | nil => simp [sortDedup]
  | cons x xs ih =>
    show y ∈ insertSeg x (sortDedup xs) ↔ _
    rw [mem_insertSeg]
    simp [ih]

theorem sortDedup_fix : ∀ {l : List Segment},
    List.Chain' segLt l → sortDedup l = l := by
  intro l
  induction l with
  | nil => intro _; rfl
  | cons x xs ih =>
    intro h
    show insertSeg x (sortDedup xs) = x :: xs
    rw [ih h.tail]
    cases xs with
    | nil => rfl
    | cons y ys =>
      unfold insertSeg
      rw [if_pos (List.chain'_cons.1 h).1]

theorem chain'_segLt_starts : ∀ {l : List Segment} {x : Segment},
    List.Chain' segLt (x :: l) → ∀ c ∈ l, x.start ≤ c.start := by
  intro l
  induction l with
  | nil => intro x _ c hc; cases hc
  | cons y ys ih =>
    intro x h c hc
    have hxy := (List.chain'_cons.1 h).1
    rcases List.mem_cons.1 hc with rfl | hc'
    · exact segLt_start_le hxy
    · exact le_trans (segLt_start_le hxy) (ih (List.chain'_cons.1 h).2 c hc')

theorem chain'_imp_mem {R S : Segment → Segment → Prop} :
    ∀ {l : List Segment}, (∀ x ∈ l, ∀ y ∈ l, R x y → S x y) →
      List.Chain' R l → List.Chain' S l := by
  intro l
  induction l with
  | nil => intro _ _; simp
  | cons x xs ih =>
    intro hmem h
    refine List.chain'_cons'.2 ⟨?_, ?_⟩
    · intro y hy
      have hyx : y ∈ xs := List.mem_of_mem_head? hy
      have := (List.chain'_cons'.1 h).1 y hy
      exact hmem x (by simp) y (by simp [hyx]) this
    · exact ih (fun a ha b hb => hmem a (by simp [ha]) b (by simp [hb]))
        (List.chain'_cons'.1 h).2

/-! ## Correctness of the `sort_and_merge` loop -/

theorem smLoop_spec (a : Int) : ∀ (cs : List Segment) (p : Segment),
    p.start < p.stop → p.attr = a →
    (∀ c ∈ cs, c.start < c.stop) → (∀ c ∈ cs, c.attr = a) →
    List.Chain' segLt cs → (∀ c ∈ cs, p.start ≤ c.start) →
    (∀ t ∈ smLoop (some p) cs, t.start < t.stop ∧ t.attr = a) ∧
    List.Chain' (fun x y => x.stop < y.start) (smLoop (some p) cs) ∧
    (smLoop (some p) cs).head?.map Segment.start = some p.start := by
  intro cs
  induction cs with
  | nil =>
    intro p hp hpa _ _ _ _
    refine ⟨?_, by simp [smLoop], by simp [smLoop]⟩
    intro t ht
    simp [smLoop] at ht
    subst ht
    exact ⟨hp, hpa⟩
  | cons c cs ih =>
    intro p hp hpa hpos hattr hchain hstarts
    by_cases hge : p.stop ≥ c.start
    · have hres : smLoop (some p) (c :: cs) =
        smLoop (some (Segment.mk p.start (max p.stop c.stop) c.attr)) cs := by
        have he : smLoop (some p) (c :: cs) =
            if p.stop ≥ c.start then
              smLoop (some (Segment.mk p.start (max p.stop c.stop) c.attr)) cs
            else p :: smLoop (some c) cs := rfl
        rw [he, if_pos hge]
      rw [hres]
      refine ih (Segment.mk p.start (max p.stop c.stop) c.attr)
        (by simp; omega) (by simpa using hattr c (by simp))
        (fun d hd => hpos d (by simp [hd])) (fun d hd => hattr d (by simp [hd]))
        hchain.tail ?_
      intro d hd
      exact hstarts d (by simp [hd])
    · have hres : smLoop (some p) (c :: cs) = p :: smLoop (some c) cs := by
        have he : smLoop (some p) (c :: cs) =
            if p.stop ≥ c.start then
              smLoop (some (Segment.mk p.start (max p.stop c.stop) c.attr)) cs
            else p :: smLoop (some c) cs := rfl
        rw [he, if_neg hge]
      have hrec := ih c (hpos c (by simp)) (hattr c (by simp))
        (fun d hd => hpos d (by simp [hd])) (fun d hd => hattr d (by simp [hd]))
        hchain.tail (chain'_segLt_starts hchain)
      rw [hres]
      refine ⟨?_, ?_, by simp⟩
      · intro t ht
        rcases List.mem_cons.1 ht with rfl | ht'
        · exact ⟨hp, hpa⟩
        · exact hrec.1 t ht'
      · refine List.chain'_cons'.2 ⟨?_, hrec.2.1⟩
        intro y hy
        have hy' : (smLoop (some c) cs).head? = some y := Option.mem_def.1 hy
        have hymem := hrec.2.2
        rw [hy'] at hymem
        have hys : y.start = c.start := by
          simpa using hymem
        show p.stop < y.start
        omega

theorem smLoop_gap_fix : ∀ (cs : List Segment) (p : Segment),
    List.Chain' (fun x y => x.stop < y.start) (p :: cs) →
    smLoop (some p) cs = p :: cs := by
  intro cs
  induction cs with
  | nil => intro p _; rfl
  | cons c cs ih =>
    intro p h
    have hgap := (List.chain'_cons.1 h).1
    have he : smLoop (some p) (c :: cs) =
        if p.stop ≥ c.start then
          smLoop (some (Segment.mk p.start (max p.stop c.stop) c.attr)) cs
        else p :: smLoop (some c) cs := rfl
    rw [he, if_neg (by omega), ih c (List.chain'_cons.1 h).2]

theorem sort_and_merge_spec {S : List Segment} {a : Int}
    (hpos : ∀ s ∈ S, s.start < s.stop) (hattr : ∀ s ∈ S, s.attr = a) :
    (∀ t ∈ sort_and_merge S, t.start < t.stop ∧ t.attr = a) ∧
    List.Chain' (fun x y => x.stop < y.start) (sort_and_merge S) ∧
    sort_and_merge (sort_and_merge S) = sort_and_merge S := by
  have hgap_chain : ∀ (M : List Segment), (∀ t ∈ M, t.start < t.stop ∧ t.attr = a) →
      List.Chain' (fun x y => x.stop < y.start) M → sort_and_merge M = M := by
    intro M hM hchain
    have hlt : List.Chain' segLt M := by
      refine chain'_imp_mem (fun x hx y _ hxy => ?_) hchain
      have := (hM x hx).1
      unfold segLt
      omega
    unfold sort_and_merge
    rw [sortDedup_fix hlt]
    cases M with
    | nil => rfl
    | cons x xs =>
      have : smLoop none (x :: xs) = smLoop (some x) xs := rfl
      rw [this, smLoop_gap_fix xs x hchain, sortDedup_fix hlt]
  rcases hsd : sortDedup S with _ | ⟨x, xs⟩
  · have hS : sort_and_merge S = [] := by
      unfold sort_and_merge
      rw [hsd]
      rfl
    rw [hS]
    exact ⟨by simp, by simp, by rfl⟩
  · have hchain : List.Chain' segLt (x :: xs) := hsd ▸ chain'_sortDedup S
    have hmem : ∀ c ∈ x :: xs, c ∈ S := by
      intro c hc
      have : c ∈ sortDedup S := hsd ▸ hc
      exact mem_sortDedup.1 this
    have hspec := smLoop_spec a xs x
      ((hpos x (hmem x (by simp))))
      (hattr x (hmem x (by simp)))
      (fun c hc => hpos c (hmem c (by simp [hc])))
      (fun c hc => hattr c (hmem c (by simp [hc])))
      hchain.tail (chain'_segLt_starts hchain)
    have hsm : sort_and_merge S = smLoop (some x) xs := by
      unfold sort_and_merge
      rw [hsd]
      show sortDedup (smLoop (some x) xs) = _
      apply sortDedup_fix
      refine chain'_imp_mem (fun u hu y _ huy => ?_) hspec.2.1
      have := (hspec.1 u hu).1
      unfold segLt
      omega
    rw [hsm]
    exact ⟨hspec.1, hspec.2.1, by
      rw [← hsm]
      exact hgap_chain _ (hsm ▸ hspec.1) (hsm ▸ hspec.2.1)⟩

/-- C8: for every segment set of one style tag with `start < end` each,
`sort_and_merge` is idempotent, and a single application returns a sorted,
non-overlapping (consecutive ranges separated by a strict gap, touching or
overlapping inputs having been fused) list of non-empty ranges carrying the
same tag. -/
theorem sort_and_merge_idempotent :
    ∀ (S : List Segment) (a : Int),
      (∀ s ∈ S, s.start < s.stop) → (∀ s ∈ S, s.attr = a) →
      sort_and_merge (sort_and_merge S) = sort_and_merge S ∧
      List.Chain' (fun x y => x.stop < y.start) (sort_and_merge S) ∧
      (∀ t ∈ sort_and_merge S, t.start < t.stop ∧ t.attr = a) := by
  intro S a hpos hattr
  have h := sort_and_merge_spec hpos hattr
  exact ⟨h.2.2, h.2.1, h.1⟩

/-- Witness for C8 at the concrete overlapping set {(0,3), (1,5)} of tag -1,
merged into (0,5). -/
theorem sort_and_merge_idempotent_witness :
    (∀ s ∈ [Segment.mk 0 3 (-1), Segment.mk 1 5 (-1)], s.start < s.stop) ∧
    (∀ s ∈ [Segment.mk 0 3 (-1), Segment.mk 1 5 (-1)], s.attr = -1) ∧
    (sort_and_merge (sort_and_merge [Segment.mk 0 3 (-1), Segment.mk 1 5 (-1)]) =
      sort_and_merge [Segment.mk 0 3 (-1), Segment.mk 1 5 (-1)] ∧
    List.Chain' (fun x y => x.stop < y.start)
      (sort_and_merge [Segment.mk 0 3 (-1), Segment.mk 1 5 (-1)]) ∧
    (∀ t ∈ sort_and_merge [Segment.mk 0 3 (-1), Segment.mk 1 5 (-1)],
      t.start < t.stop ∧ t.attr = -1)) :=
  ⟨by decide, by decide,
    sort_and_merge_idempotent [Segment.mk 0 3 (-1), Segment.mk 1 5 (-1)] (-1)
      (by decide) (by decide)⟩

/-! ## `find_matching` requires every keyword to match (C4) -/

theorem findMatchingAux_fail (m : Matcher) (text : String) (ic : Bool)
    (attr : Int) : ∀ (ks : List String) (acc : List Segment),
    (∃ k ∈ ks, ∀ o ∈ m k text ic, ¬ o.1 < o.2) →
    findMatchingAux m text ic attr ks acc = (false, []) := by
  intro ks
  induction ks with
  | nil =>
    intro acc h
    rcases h with ⟨k, hk, _⟩
    cases hk
  | cons k ks ih =>
    intro acc h
    show (if ((m k text ic).filter (fun o => decide (o.1 < o.2))).isEmpty
      then ((false : Bool), ([] : List Segment))
      else findMatchingAux m text ic attr ks
        (acc ++ ((m k text ic).filter (fun o => decide (o.1 < o.2))).map
          (fun o => Segment.mk o.1 o.2 attr))) = (false, [])
    by_cases hocc : ((m k text ic).filter (fun o => decide (o.1 < o.2))).isEmpty
    · rw [if_pos hocc]
    · rw [if_neg hocc]
      apply ih
      rcases h with ⟨q, hq, hfail⟩
      rcases List.mem_cons.1 hq with rfl | hm
      · exfalso
        apply hocc
        rw [List.isEmpty_iff]
        refine List.filter_eq_nil_iff.2 ?_
        intro o ho
        simpa using hfail o ho
      · exact ⟨q, hm, hfail⟩

/-- C4: for every text and non-empty keyword list, if some keyword has no
non-empty occurrence in the text (zero-length matches never count), then
`find_matching` returns `(False, [])`: the matches the other keywords
produced are discarded. -/
theorem find_matching_requires_all_keywords (m : Matcher) (text : String)
    (keywords : List String) (ic : Bool) (attr : Int)
    (hne : keywords ≠ [])
    (hfail : ∃ k ∈ keywords, ∀ o ∈ m k text ic, ¬ o.1 < o.2) :
    find_matching m text keywords ic attr = (false, []) :=
  findMatchingAux_fail m text ic attr keywords [] hfail

/-- Witness for C4: the filter with keywords {"a", "z"} on the line "abc"
reports no match and produces no segments even though "a" occurs. -/
theorem find_matching_requires_all_keywords_witness :
    (["a", "z"] ≠ ([] : List String)) ∧
    (∃ k ∈ ["a", "z"], ∀ o ∈ literalMatcher k "abc" false, ¬ o.1 < o.2) ∧
    (literalMatcher "a" "abc" false ≠ []) ∧
    find_matching literalMatcher "abc" ["a", "z"] false 0 = (false, []) :=
  ⟨by decide, by decide, by decide,
    find_matching_requires_all_keywords literalMatcher "abc" ["a", "z"] false 0
      (by decide) (by decide)⟩

/-! ## `push_keyword` error paths (C9) -/

/-- C9: `push_keyword` with an empty keyword is a no-op returning the
informational status "No keyword added"; with a keyword that does not
compile as a regular expression it returns the descriptive status
"Invalid python regex pattern" and leaves every filter and the dirty flag
unchanged; both paths return normally. -/
theorem push_keyword_rejects (valid : String → Bool) (c : ViewConfig)
    (k : String) (nf : Bool) :
    (k.length = 0 → push_keyword valid c k nf = (c, "No keyword added")) ∧
    (k.length ≠ 0 → valid k = false →
      push_keyword valid c k nf = (c, "Invalid python regex pattern")) := by
  constructor
  · intro h
    unfold push_keyword
    rw [if_pos (by omega)]
  · intro h1 h2
    unfold push_keyword
    rw [if_neg (by omega), h2]
    rfl

/-- Witness for C9 at a concrete configuration: the malformed pattern "("
(modelled by a validator rejecting it) and the empty keyword. -/
theorem push_keyword_rejects_witness :
    push_keyword (fun _ => false) (ViewConfig.mk [Filter.mk false false ["x"]] false)
        "(" true =
      (ViewConfig.mk [Filter.mk false false ["x"]] false, "Invalid python regex pattern") ∧
    push_keyword (fun _ => true) (ViewConfig.mk [Filter.mk false false ["x"]] false)
        "" true =
      (ViewConfig.mk [Filter.mk false false ["x"]] false, "No keyword added") :=
  ⟨(push_keyword_rejects (fun _ => false)
      (ViewConfig.mk [Filter.mk false false ["x"]] false) "(" true).2
      (by decide) rfl,
    (push_keyword_rejects (fun _ => true)
      (ViewConfig.mk [Filter.mk false false ["x"]] false) "" true).1 rfl⟩

/-! ## `set_v_offset` clamping and descriptor (C5) -/

/-- C5 counterexample: on a freshly laid out view (range [0, 90], stored
offset 0, blank descriptor), `set_v_offset 0` clamps to 0 — the minimum of
the range — yet does not set the descriptor to "TOP" (the call reports no
change and leaves the descriptor untouched). -/
theorem set_v_offset_desc_not_updated :
    (Offsets.set_v_offset (Offsets.layout offsetsInit 10 100) 0).1.voffset = 0 ∧
    (Offsets.layout offsetsInit 10 100).ymax = 90 ∧
    (Offsets.set_v_offset (Offsets.layout offsetsInit 10 100) 0).2 = false ∧
    (Offsets.set_v_offset (Offsets.layout offsetsInit 10 100) 0).1.voffset_desc ≠
      "TOP" := by
  decide

/-- C5 as amended: `set_v_offset` clamps the vertical offset into
`[0, ymax]` where `layout` put `ymax = max 0 (total − viewport)`, returns
`True` exactly when the stored offset changed, and — only when it changed —
sets the descriptor per `vDescSpec`: `TOP` at the minimum and `BOT` at the
maximum of a non-degenerate range (`BOT` for non-negative requests when the
range is the single point 0), an integer percentage otherwise; an
unchanged offset leaves the whole state untouched. -/
theorem set_v_offset_spec (o : Offsets) (offset : Int) :
    (Offsets.set_v_offset o offset).1.voffset = min o.ymax offset.toNat ∧
    ((Offsets.set_v_offset o offset).2 = true ↔ min o.ymax offset.toNat ≠ o.voffset) ∧
    ((Offsets.set_v_offset o offset).2 = true →
      (Offsets.set_v_offset o offset).1.voffset_desc = vDescSpec o.ymax offset) ∧
    ((Offsets.set_v_offset o offset).2 = false →
      (Offsets.set_v_offset o offset).1 = o) := by
  by_cases h1 : offset ≥ (o.ymax : Int)
  · have hmin : min o.ymax offset.toNat = o.ymax := by omega
    have hdesc : vDescSpec o.ymax offset = "BOT" := by
      unfold vDescSpec
      by_cases hz : o.ymax = 0
      · rw [if_pos hz, if_pos (by omega)]
      · rw [if_neg hz, if_neg (by omega), if_pos (by omega)]
    by_cases h2 : o.voffset = o.ymax
    · have hov : Offsets.set_v_offset o offset = (o, false) := by
        simp only [Offsets.set_v_offset]
        rw [if_pos h1]
        simp [h2]
      rw [hov]
      exact ⟨by simpa [hmin] using h2, by simp [hmin, h2], by simp, fun _ => rfl⟩
    · have hov : Offsets.set_v_offset o offset =
          (Offsets.mk o.hoffset o.ymax "BOT" o.ymax, true) := by
        simp only [Offsets.set_v_offset]
        rw [if_pos h1]
        simp [h2]
      rw [hov]
      refine ⟨by simp [hmin], by simp [hmin]; omega, fun _ => ?_, by simp⟩
      simp [hdesc]
  · by_cases h2 : offset ≤ 0
    · have hmin : min o.ymax offset.toNat = 0 := by omega
      have hdesc : vDescSpec o.ymax offset = "TOP" := by
        unfold vDescSpec
        by_cases hz : o.ymax = 0
        · rw [if_pos hz, if_neg (by omega)]
        · rw [if_neg hz, if_pos (by omega)]
      by_cases h3 : o.voffset = 0
      · have hov : Offsets.set_v_offset o offset = (o, false) := by
          simp only [Offsets.set_v_offset]
          rw [if_neg h1, if_pos h2]
          simp [h3]
        rw [hov]
        exact ⟨by simpa [hmin] using h3, by simp [hmin, h3], by simp, fun _ => rfl⟩
      · have hov : Offsets.set_v_offset o offset =
            (Offsets.mk o.hoffset 0 "TOP" o.ymax, true) := by
          simp only [Offsets.set_v_offset]
          rw [if_neg h1, if_pos h2]
          simp [h3]
        rw [hov]
        refine ⟨by simp [hmin], by simp [hmin]; omega, fun _ => ?_, by simp⟩
        simp [hdesc]
    · have hmin : min o.ymax offset.toNat = offset.toNat := by omega
      have hdesc : vDescSpec o.ymax offset =
          toString (offset.toNat * 100 / o.ymax) ++ "%" := by
        unfold vDescSpec
        rw [if_neg (by omega), if_neg (by omega), if_neg (by omega), hmin]
      by_cases h3 : o.voffset = offset.toNat
      · have hov : Offsets.set_v_offset o offset = (o, false) := by
          simp only [Offsets.set_v_offset]
          rw [if_neg h1, if_neg h2]
          simp [h3]
        rw [hov]
        exact ⟨by simpa [hmin] using h3, by simp [hmin, h3], by simp, fun _ => rfl⟩
      · have hov : Offsets.set_v_offset o offset =
            (Offsets.mk o.hoffset offset.toNat
              (toString (offset.toNat * 100 / o.ymax) ++ "%") o.ymax, true) := by
          simp only [Offsets.set_v_offset]
          rw [if_neg h1, if_neg h2]
          simp [h3]
        rw [hov]
        refine ⟨by simp [hmin], by simp [hmin]; omega, fun _ => ?_, by simp⟩
        simp [hdesc]

/-- Witness for C5 at range [0, 90], request 45: the offset changes and the
descriptor becomes the percentage "50%". -/
theorem set_v_offset_spec_witness :
    (Offsets.set_v_offset (Offsets.mk 0 0 "" 90) 45).2 = true ∧
    (Offsets.set_v_offset (Offsets.mk 0 0 "" 90) 45).1.voffset_desc =
      vDescSpec 90 45 :=
  ⟨by decide, (set_v_offset_spec (Offsets.mk 0 0 "" 90) 45).2.2.1 (by decide)⟩

/-! ## `apply_filters`: hide precedence (C3) and hit counting (C10) -/

theorem findMatchingAux_cons (m : Matcher) (text : String) (ic : Bool)
    (attr : Int) (k : String) (ks : List String) (acc : List Segment) :
    findMatchingAux m text ic attr (k :: ks) acc =
      if ((m k text ic).filter (fun o => decide (o.1 < o.2))).isEmpty
      then (false, [])
      else findMatchingAux m text ic attr ks
        (acc ++ ((m k text ic).filter (fun o => decide (o.1 < o.2))).map
          (fun o => Segment.mk o.1 o.2 attr)) := rfl

theorem findMatchingAux_fst_eq (m : Matcher) (text : String) (ic : Bool) :
    ∀ (ks : List String) (a b : Int) (acc1 acc2 : List Segment),
      (findMatchingAux m text ic a ks acc1).1 =
        (findMatchingAux m text ic b ks acc2).1 := by
  intro ks
  induction ks with
  | nil => intro a b acc1 acc2; rfl
  | cons k ks ih =>
    intro a b acc1 acc2
    rw [findMatchingAux_cons, findMatchingAux_cons]
    by_cases h : ((m k text ic).filter (fun o => decide (o.1 < o.2))).isEmpty
    · rw [if_pos h, if_pos h]
    · rw [if_neg h, if_neg h]
      exact ih a b _ _

theorem find_matching_fst (m : Matcher) (text : String) (ks : List String)
    (ic : Bool) (a : Int) :
    (find_matching m text ks ic a).1 = (find_matching m text ks ic 0).1 :=
  findMatchingAux_fst_eq m text ic ks a 0 [] []

theorem applyFiltersLoop_cons (m : Matcher) (line : String) (f : Filter)
    (fs : List Filter) (fidx : Nat) (hits : List Nat) (acc : AFAcc) :
    applyFiltersLoop m line (f :: fs) fidx hits acc =
      if (find_matching m line f.keywords f.ignore_case (Int.ofNat fidx)).1 then
        (if f.hides then
          applyFiltersLoop m line fs (fidx + 1)
            (hits.set fidx (hits.getD fidx 0 + 1))
            (AFAcc.mk acc.first_show_idx (acc.hide_count + 1) acc.show_count
              acc.segs)
        else
          applyFiltersLoop m line fs (fidx + 1)
            (hits.set fidx (hits.getD fidx 0 + 1))
            (AFAcc.mk
              (if acc.first_show_idx < 0 then Int.ofNat fidx
                else acc.first_show_idx)
              acc.hide_count (acc.show_count + 1)
              (acc.segs ++
                [(find_matching m line f.keywords f.ignore_case
                  (Int.ofNat fidx)).2])))
      else applyFiltersLoop m line fs (fidx + 1) hits acc := rfl

theorem afLoop_hide_mono (m : Matcher) (line : String) :
    ∀ (fs : List Filter) (fidx : Nat) (hits : List Nat) (acc : AFAcc),
      acc.hide_count ≤ ((applyFiltersLoop m line fs fidx hits acc).2).hide_count := by
  intro fs
  induction fs with
  | nil => intro fidx hits acc; exact le_refl _
  | cons f fs ih =>
    intro fidx hits acc
    rw [applyFiltersLoop_cons]
    by_cases hm : (find_matching m line f.keywords f.ignore_case (Int.ofNat fidx)).1 = true
    · rw [if_pos hm]
      by_cases hh : f.hides = true
      · rw [if_pos hh]
        exact le_trans (Nat.le_succ _)
          (ih (fidx + 1) (hits.set fidx (hits.getD fidx 0 + 1))
            (AFAcc.mk acc.first_show_idx (acc.hide_count + 1) acc.show_count
              acc.segs))
      · rw [if_neg hh]
        exact ih (fidx + 1) (hits.set fidx (hits.getD fidx 0 + 1))
          (AFAcc.mk
            (if acc.first_show_idx < 0 then Int.ofNat fidx
              else acc.first_show_idx)
            acc.hide_count (acc.show_count + 1)
            (acc.segs ++
              [(find_matching m line f.keywords f.ignore_case (Int.ofNat fidx)).2]))
    · rw [if_neg hm]
      exact ih (fidx + 1) hits acc

theorem afLoop_hide_pos (m : Matcher) (line : String) :
    ∀ (fs : List Filter) (fidx : Nat) (hits : List Nat) (acc : AFAcc),
      (∃ f ∈ fs, f.hides = true ∧ lineMatches m line f = true) →
      0 < ((applyFiltersLoop m line fs fidx hits acc).2).hide_count := by
  intro fs
  induction fs with
  | nil =>
    intro fidx hits acc h
    rcases h with ⟨g, hg, _⟩
    cases hg
  | cons f fs ih =>
    intro fidx hits acc h
    rw [applyFiltersLoop_cons]
    rcases h with ⟨g, hg, hgh, hgm⟩
    rcases List.mem_cons.1 hg with rfl | hmem
    · have hm : (find_matching m line g.keywords g.ignore_case (Int.ofNat fidx)).1 = true := by
        rw [find_matching_fst]
        exact hgm
      rw [if_pos hm, if_pos hgh]
      exact lt_of_lt_of_le (Nat.succ_pos acc.hide_count)
        (afLoop_hide_mono m line fs (fidx + 1)
          (hits.set fidx (hits.getD fidx 0 + 1))
          (AFAcc.mk acc.first_show_idx (acc.hide_count + 1) acc.show_count
            acc.segs))
    · by_cases hm : (find_matching m line f.keywords f.ignore_case (Int.ofNat fidx)).1 = true
      · rw [if_pos hm]
        by_cases hh : f.hides = true
        · rw [if_pos hh]
          exact ih _ _ _ ⟨g, hmem, hgh, hgm⟩
        · rw [if_neg hh]
          exact ih _ _ _ ⟨g, hmem, hgh, hgm⟩
      · rw [if_neg hm]
        exact ih _ _ _ ⟨g, hmem, hgh, hgm⟩

/-- C3: whenever at least one hiding filter matches the line, `apply_filters`
returns `shown = False` with filter index `-1` and the untouched background
segments, whatever the showing filters do.  (Filters are assumed to carry at
least one keyword, as the code asserts.) -/
theorem apply_filters_hide_precedence (m : Matcher) (line : String)
    (background : List Segment) (filters : List Filter) (hits : List Nat)
    (hkw : ∀ f ∈ filters, f.keywords ≠ [])
    (hhide : ∃ f ∈ filters, f.hides = true ∧ lineMatches m line f = true) :
    (apply_filters m line background filters hits).1 = (false, -1, background) := by
  have hpos := afLoop_hide_pos m line filters 0 hits (AFAcc.mk (-1) 0 0 [background]) hhide
  have e : (apply_filters m line background filters hits).1 =
      if ((applyFiltersLoop m line filters 0 hits
            (AFAcc.mk (-1) 0 0 [background])).2).hide_count > 0
      then (false, -1, background)
      else if ((applyFiltersLoop m line filters 0 hits
            (AFAcc.mk (-1) 0 0 [background])).2).show_count > 0
      then (true, ((applyFiltersLoop m line filters 0 hits
            (AFAcc.mk (-1) 0 0 [background])).2).first_show_idx,
          flatten ((applyFiltersLoop m line filters 0 hits
            (AFAcc.mk (-1) 0 0 [background])).2).segs)
      else (true, -1, background) := rfl
  rw [e, if_pos hpos]

/-- Witness for C3: on line "ab", a showing filter on "a" and a hiding
filter on "b" both match; the line is dropped with the background kept. -/
theorem apply_filters_hide_precedence_witness :
    (∀ f ∈ [Filter.mk false false ["a"], Filter.mk false true ["b"]],
      f.keywords ≠ []) ∧
    (∃ f ∈ [Filter.mk false false ["a"], Filter.mk false true ["b"]],
      f.hides = true ∧ lineMatches literalMatcher "ab" f = true) ∧
    (apply_filters literalMatcher "ab" [Segment.mk 9 10 5]
        [Filter.mk false false ["a"], Filter.mk false true ["b"]] [0, 0]).1 =
      (false, -1, [Segment.mk 9 10 5]) :=
  ⟨by decide, by decide,
    apply_filters_hide_precedence literalMatcher "ab" [Segment.mk 9 10 5]
      [Filter.mk false false ["a"], Filter.mk false true ["b"]] [0, 0]
      (by decide) (by decide)⟩

theorem afLoop_hits (m : Matcher) (line : String) :
    ∀ (fs : List Filter) (fidx : Nat) (hits : List Nat) (acc : AFAcc),
      fidx + fs.length ≤ hits.length →
      (∀ i, i < fidx →
        ((applyFiltersLoop m line fs fidx hits acc).1).get? i = hits.get? i) ∧
      (∀ j g, fs.get? j = some g →
        ((applyFiltersLoop m line fs fidx hits acc).1).get? (fidx + j) =
          some (hits.getD (fidx + j) 0 +
            if lineMatches m line g then 1 else 0)) := by
  intro fs
  induction fs with
  | nil =>
    intro fidx hits acc _
    refine ⟨fun i _ => rfl, fun j g hj => ?_⟩
    simp at hj
  | cons f fs ih =>
    intro fidx hits acc hlen
    have hfi : fidx < hits.length := by
      simp only [List.length_cons] at hlen
      omega
    rw [applyFiltersLoop_cons]
    by_cases hm : (find_matching m line f.keywords f.ignore_case (Int.ofNat fidx)).1 = true
    · have hlm : lineMatches m line f = true := by
        unfold lineMatches
        rw [← find_matching_fst m line f.keywords f.ignore_case (Int.ofNat fidx)]
        exact hm
      rw [if_pos hm]
      have hlen1 : (fidx + 1) + fs.length ≤
          (hits.set fidx (hits.getD fidx 0 + 1)).length := by
        rw [List.length_set]
        simp only [List.length_cons] at hlen
        omega
      have key : ∀ acc' : AFAcc,
          (∀ i, i < fidx + 1 →
            ((applyFiltersLoop m line fs (fidx + 1)
              (hits.set fidx (hits.getD fidx 0 + 1)) acc').1).get? i =
              (hits.set fidx (hits.getD fidx 0 + 1)).get? i) ∧
          (∀ j g, fs.get? j = some g →
            ((applyFiltersLoop m line fs (fidx + 1)
              (hits.set fidx (hits.getD fidx 0 + 1)) acc').1).get? ((fidx + 1) + j) =
              some ((hits.set fidx (hits.getD fidx 0 + 1)).getD ((fidx + 1) + j) 0 +
                if lineMatches m line g then 1 else 0)) :=
        fun acc' => ih (fidx + 1) (hits.set fidx (hits.getD fidx 0 + 1)) acc' hlen1
      have main : ∀ acc' : AFAcc,
          (∀ i, i < fidx →
            ((applyFiltersLoop m line fs (fidx + 1)
              (hits.set fidx (hits.getD fidx 0 + 1)) acc').1).get? i = hits.get? i) ∧
          (∀ j g, (f :: fs).get? j = some g →
            ((applyFiltersLoop m line fs (fidx + 1)
              (hits.set fidx (hits.getD fidx 0 + 1)) acc').1).get? (fidx + j) =
              some (hits.getD (fidx + j) 0 +
                if lineMatches m line g then 1 else 0)) := by
        intro acc'
        constructor
        · intro i hi
          rw [(key acc').1 i (by omega)]
          exact List.get?_set_ne _ _ (by omega)
        · intro j g hj
          cases j with
          | zero =>
            simp only [List.get?] at hj
            injection hj with hj
            subst hj
            have h0 : fidx + 0 = fidx := by omega
            rw [h0, (key acc').1 fidx (by omega),
              List.get?_set_eq_of_lt _ hfi, hlm]
            simp
          | succ j =>
            simp only [List.get?] at hj
            have harith : fidx + (j + 1) = (fidx + 1) + j := by omega
            rw [harith, (key acc').2 j g hj]
            have hne : (hits.set fidx (hits.getD fidx 0 + 1)).getD ((fidx + 1) + j) 0 =
                hits.getD ((fidx + 1) + j) 0 := by
              rw [List.getD_eq_get?, List.get?_set_ne _ _ (by omega)]
              exact (List.getD_eq_get? _ _ _).symm
            rw [hne]
      by_cases hh : f.hides = true
      · rw [if_pos hh]
        exact main _
      · rw [if_neg hh]
        exact main _
    · have hlm : lineMatches m line f = false := by
        unfold lineMatches
        rw [← find_matching_fst m line f.keywords f.ignore_case (Int.ofNat fidx)]
        exact Bool.not_eq_true _ ▸ eq_false_of_ne_true hm
      rw [if_neg hm]
      have key := ih (fidx + 1) hits acc (by
        simp only [List.length_cons] at hlen
        omega)
      constructor
      · intro i hi
        exact key.1 i (by omega)
      · intro j g hj
        cases j with
        | zero =>
          simp only [List.get?] at hj
          injection hj with hj
          subst hj
          have h0 : fidx + 0 = fidx := by omega
          rw [h0, key.1 fidx (by omega), hlm]
          simp [List.get?_eq_getElem?, List.getD_eq_getElem?_getD,
            List.getElem?_eq_getElem hfi]
        | succ j =>
          simp only [List.get?] at hj
          have harith : fidx + (j + 1) = (fidx + 1) + j := by omega
          rw [harith]
          exact key.2 j g hj

/-- C10: `apply_filters` increments the hit counter of exactly the filters
matching the raw line, hiding filters included: a filter's hit count counts
matching raw lines, not displayed lines.  (Filters carry at least one
keyword, and the hit list has one counter per filter, as the caller
guarantees.) -/
theorem apply_filters_hits_count (m : Matcher) (line : String)
    (background : List Segment) (filters : List Filter) (hits : List Nat)
    (hkw : ∀ f ∈ filters, f.keywords ≠ [])
    (hlen : hits.length = filters.length) :
    ∀ i f, filters.get? i = some f →
      ((apply_filters m line background filters hits).2).get? i =
        some (hits.getD i 0 + if lineMatches m line f then 1 else 0) := by
  intro i f hif
  have e : (apply_filters m line background filters hits).2 =
      (applyFiltersLoop m line filters 0 hits (AFAcc.mk (-1) 0 0 [background])).1 := rfl
  rw [e]
  have h := (afLoop_hits m line filters 0 hits (AFAcc.mk (-1) 0 0 [background])
    (by omega)).2 i f hif
  simpa using h

/-- Witness for C10: on line "ab" with a showing filter on "a" and a hiding
filter on "b" (which drops the line), both hit counters are incremented. -/
theorem apply_filters_hits_count_witness :
    ((apply_filters literalMatcher "ab" []
        [Filter.mk false false ["a"], Filter.mk false true ["b"]] [0, 5]).2).get? 1 =
      some 6 :=
  (apply_filters_hits_count literalMatcher "ab" []
      [Filter.mk false false ["a"], Filter.mk false true ["b"]] [0, 5]
      (by decide) (by decide) 1 (Filter.mk false true ["b"])
      (by decide)).trans (by decide)

/-! ## The `merge` occlusion slip (C1) -/

/-- C1: the claim fails on the code.  On the sorted, non-overlapping layers
bottom = [(0,2), (3,5)] (attribute 0) and top = [(1,4)] (attribute 1),
`merge` emits the complete bottom segment (3,5) after consuming the top
segment (1,4) inside the first bottom segment, so the result overlaps and
the points 3 of the output carry the bottom attribute although the top
range (1,4) covers them: bottom is not occluded where top overlaps it. -/
theorem merge_occlusion_fails :
    merge [Segment.mk 0 2 0, Segment.mk 3 5 0] [Segment.mk 1 4 1] =
      [Segment.mk 0 1 0, Segment.mk 1 4 1, Segment.mk 3 5 0] ∧
    disjointSorted (merge [Segment.mk 0 2 0, Segment.mk 3 5 0]
      [Segment.mk 1 4 1]) = false ∧
    (Segment.mk 3 5 0) ∈ merge [Segment.mk 0 2 0, Segment.mk 3 5 0]
      [Segment.mk 1 4 1] := by
  decide

/-! ## `iterate` partitions the window (C7) -/

theorem iterate_nil (s e : Nat) :
    iterate s e [] = if s < e then [(false, s, e, -1)] else [] := rfl

theorem iterate_cons (s e : Nat) (cur : Segment) (rest : List Segment) :
    iterate s e (cur :: rest) =
      if s ≥ e then []
      else if s ≥ cur.stop then iterate s e rest
      else if e < cur.start then [(false, s, e, -1)]
      else
        (if s < cur.start then [(false, s, cur.start, -1)] else []) ++
        (if max s cur.start < min cur.stop e then
          [(true, max s cur.start, min cur.stop e, cur.attr)] else []) ++
        iterate cur.stop e rest := rfl

theorem iterate_nil_of_ge (s e : Nat) (segs : List Segment) (h : s ≥ e) :
    iterate s e segs = [] := by
  cases segs with
  | nil => rw [iterate_nil, if_neg (by omega)]
  | cons cur rest => rw [iterate_cons, if_pos h]

theorem chain_gap_all : ∀ (l : List Segment) (x : Segment),
    (∀ c ∈ l, c.start < c.stop) →
    List.Chain' (fun a b => a.stop < b.start) (x :: l) →
    ∀ c ∈ l, x.stop < c.start := by
  intro l
  induction l with
  | nil => intro x _ _ c hc; cases hc
  | cons y ys ih =>
    intro x hpos hch c hc
    have hxy : x.stop < y.start := (List.chain'_cons.1 hch).1
    rcases List.mem_cons.1 hc with rfl | hc'
    · exact hxy
    · have hy := ih y (fun d hd => hpos d (by simp [hd]))
        (List.chain'_cons.1 hch).2 c hc'
      have := hpos y (by simp)
      omega

theorem covers_append : ∀ (l1 : List (Bool × Nat × Nat × Int)) (a b c : Nat)
    (l2 : List (Bool × Nat × Nat × Int)), covers a l1 b = true →
    covers b l2 c = true → covers a (l1 ++ l2) c = true := by
  intro l1
  induction l1 with
  | nil =>
    intro a b c l2 h1 h2
    have : a = b := by simpa [covers] using h1
    subst this
    simpa using h2
  | cons p ps ih =>
    intro a b c l2 h1 h2
    rcases p with ⟨f, x, y, w⟩
    simp only [covers, Bool.and_eq_true, beq_iff_eq, decide_eq_true_eq] at h1
    simp only [List.cons_append, covers, Bool.and_eq_true, beq_iff_eq,
      decide_eq_true_eq]
    exact ⟨⟨h1.1.1, h1.1.2⟩, ih y b c l2 h1.2 h2⟩

theorem iterate_master (e : Nat) : ∀ (segs : List Segment) (s : Nat),
    s < e → (∀ c ∈ segs, c.start < c.stop) →
    List.Chain' (fun a b => a.stop < b.start) segs →
    covers s (iterate s e segs) e = true ∧
    List.Chain' (fun p q => p.1 ≠ q.1) (iterate s e segs) ∧
    (∀ p, (iterate s e segs).head? = some p → p.1 = true →
      ∃ c ∈ segs, c.start ≤ s) := by
  intro segs
  induction segs with
  | nil =>
    intro s hs _ _
    rw [iterate_nil, if_pos hs]
    refine ⟨by simp [covers, hs], by simp, ?_⟩
    intro p hp ht
    simp only [List.head?_cons, Option.some.injEq] at hp
    rw [← hp] at ht
    cases ht
  | cons cur rest ih =>
    intro s hs hpos hch
    have hcurpos := hpos cur (by simp)
    have htail : ∀ c ∈ rest, c.start < c.stop := fun c hc => hpos c (by simp [hc])
    rw [iterate_cons, if_neg (by omega)]
    by_cases h1 : s ≥ cur.stop
    · rw [if_pos h1]
      have hres := ih s hs htail hch.tail
      refine ⟨hres.1, hres.2.1, ?_⟩
      intro p hp ht
      rcases hres.2.2 p hp ht with ⟨c, hc, hcs⟩
      exact ⟨c, by simp [hc], hcs⟩
    · rw [if_neg h1]
      by_cases h2 : e < cur.start
      · rw [if_pos h2]
        refine ⟨by simp [covers, hs], by simp, ?_⟩
        intro p hp ht
        simp only [List.head?_cons, Option.some.injEq] at hp
        rw [← hp] at ht
        cases ht
      · rw [if_neg h2]
        have hgapall := chain_gap_all rest cur htail hch
        by_cases h3 : cur.stop < e
        · have hrec := ih cur.stop h3 htail hch.tail
          have hrecfalse : ∀ p, (iterate cur.stop e rest).head? = some p →
              p.1 = false := by
            intro p hp
            cases hpt : p.1
            · rfl
            · rcases hrec.2.2 p hp hpt with ⟨c, hc, hcs⟩
              have := hgapall c hc
              omega
          have hmin : min cur.stop e = cur.stop := by omega
          by_cases h4 : s < cur.start
          · have hmax : max s cur.start = cur.start := by omega
            rw [if_pos h4, hmax, hmin, if_pos (by omega)]
            simp only [List.cons_append, List.nil_append]
            refine ⟨?_, ?_, ?_⟩
            · simp [covers, hrec.1] <;> omega
            · refine List.chain'_cons.2 ⟨by simp, ?_⟩
              refine List.chain'_cons'.2 ⟨?_, hrec.2.1⟩
              intro q hq
              have := hrecfalse q (Option.mem_def.1 hq)
              simp [this]
            · intro p hp ht
              simp only [List.head?_cons, Option.some.injEq] at hp
              rw [← hp] at ht
              cases ht
          · have hmax : max s cur.start = s := by omega
            rw [if_neg h4, hmax, hmin, if_pos (by omega)]
            simp only [List.cons_append, List.nil_append]
            refine ⟨?_, ?_, ?_⟩
            · simp [covers, hrec.1] <;> omega
            · refine List.chain'_cons'.2 ⟨?_, hrec.2.1⟩
              intro q hq
              have := hrecfalse q (Option.mem_def.1 hq)
              simp [this]
            · intro p hp ht
              exact ⟨cur, by simp, by omega⟩
        · have hrecnil : iterate cur.stop e rest = [] :=
            iterate_nil_of_ge _ _ _ (by omega)
          have hmin : min cur.stop e = e := by omega
          rw [hrecnil]
          by_cases h4 : s < cur.start
          · by_cases h5 : cur.start < e
            · have hmax : max s cur.start = cur.start := by omega
              rw [if_pos h4, hmax, hmin, if_pos (by omega)]
              simp only [List.cons_append, List.nil_append, List.append_nil]
              refine ⟨by simp [covers] <;> omega, by simp, ?_⟩
              intro p hp ht
              simp only [List.head?_cons, Option.some.injEq] at hp
              rw [← hp] at ht
              cases ht
            · have hse : cur.start = e := by omega
              have hmax : max s cur.start = cur.start := by omega
              rw [if_pos h4, hmax, hmin, if_neg (by omega)]
              simp only [List.cons_append, List.nil_append, List.append_nil]
              refine ⟨by simp [covers] <;> omega, by simp, ?_⟩
              intro p hp ht
              simp only [List.head?_cons, Option.some.injEq] at hp
              rw [← hp] at ht
              cases ht
          · have hmax : max s cur.start = s := by omega
            rw [if_neg h4, hmax, hmin, if_pos (by omega)]
            simp only [List.cons_append, List.nil_append, List.append_nil]
            refine ⟨by simp [covers] <;> omega, by simp, ?_⟩
            intro p hp ht
            exact ⟨cur, by simp, by omega⟩

/-- C7: for every window `[s, e)` with `s < e` and every sorted,
non-overlapping, merged (consecutive segments separated by a strict gap)
segment list of non-empty segments, the pieces yielded by `iterate` are an
exact contiguous left-to-right partition of `[s, e)` — no gaps, no
overlaps, all pieces non-empty and inside the window — and no two adjacent
pieces carry the same `is_match` flag. -/
theorem iterate_partition (s e : Nat) (segs : List Segment)
    (hs : s < e) (hpos : ∀ c ∈ segs, c.start < c.stop)
    (hch : List.Chain' (fun a b => a.stop < b.start) segs) :
    covers s (iterate s e segs) e = true ∧
    List.Chain' (fun p q => p.1 ≠ q.1) (iterate s e segs) :=
  ⟨(iterate_master e segs s hs hpos hch).1,
    (iterate_master e segs s hs hpos hch).2.1⟩

/-- Witness for C7 on the window [10, 50) and the segments (5,15), (25,35)
from the repository's own unit tests. -/
theorem iterate_partition_witness :
    ((10 : Nat) < 50) ∧
    (∀ c ∈ [Segment.mk 5 15 (-1), Segment.mk 25 35 (-1)], c.start < c.stop) ∧
    List.Chain' (fun a b => a.stop < b.start)
      [Segment.mk 5 15 (-1), Segment.mk 25 35 (-1)] ∧
    (covers 10 (iterate 10 50 [Segment.mk 5 15 (-1), Segment.mk 25 35 (-1)]) 50 =
        true ∧
      List.Chain' (fun p q => p.1 ≠ q.1)
        (iterate 10 50 [Segment.mk 5 15 (-1), Segment.mk 25 35 (-1)])) :=
  ⟨by decide, by decide, List.chain'_pair.2 (by decide),
    iterate_partition 10 50 [Segment.mk 5 15 (-1), Segment.mk 25 35 (-1)]
      (by decide) (by decide) (List.chain'_pair.2 (by decide))⟩

/-! ## All-hiding filter lists force ALL visibility (C6) -/

theorem afLoop_all_hiding (m : Matcher) (line : String) :
    ∀ (fs : List Filter) (fidx : Nat) (hits : List Nat) (acc : AFAcc),
      (∀ f ∈ fs, f.hides = true) →
      ((applyFiltersLoop m line fs fidx hits acc).2).show_count = acc.show_count ∧
      ((applyFiltersLoop m line fs fidx hits acc).2).hide_count =
        acc.hide_count + fs.countP (fun f => lineMatches m line f) := by
  intro fs
  induction fs with
  | nil => intro fidx hits acc _; exact ⟨rfl, by simp [applyFiltersLoop]⟩
  | cons f fs ih =>
    intro fidx hits acc hall
    rw [applyFiltersLoop_cons]
    have hf : f.hides = true := hall f (by simp)
    by_cases hm : (find_matching m line f.keywords f.ignore_case (Int.ofNat fidx)).1 = true
    · have hlm : lineMatches m line f = true := by
        unfold lineMatches
        rw [← find_matching_fst m line f.keywords f.ignore_case (Int.ofNat fidx)]
        exact hm
      rw [if_pos hm, if_pos hf]
      have h := ih (fidx + 1) (hits.set fidx (hits.getD fidx 0 + 1))
        (AFAcc.mk acc.first_show_idx (acc.hide_count + 1) acc.show_count acc.segs)
        (fun g hg => hall g (by simp [hg]))
      refine ⟨h.1, ?_⟩
      rw [h.2]
      simp [List.countP_cons, hlm]
      omega
    · have hlm : lineMatches m line f = false := by
        unfold lineMatches
        rw [← find_matching_fst m line f.keywords f.ignore_case (Int.ofNat fidx)]
        exact Bool.not_eq_true _ ▸ eq_false_of_ne_true hm
      rw [if_neg hm]
      have h := ih (fidx + 1) hits acc (fun g hg => hall g (by simp [hg]))
      refine ⟨h.1, ?_⟩
      rw [h.2]
      simp [List.countP_cons, hlm]

theorem apply_filters_all_hiding (m : Matcher) (line : String)
    (background : List Segment) (filters : List Filter) (hits : List Nat)
    (hall : ∀ f ∈ filters, f.hides = true) :
    (apply_filters m line background filters hits).1 =
      if filters.any (fun f => f.hides && lineMatches m line f) = true
      then (false, -1, background) else (true, -1, background) := by
  have hloop := afLoop_all_hiding m line filters 0 hits
    (AFAcc.mk (-1) 0 0 [background]) hall
  have e : (apply_filters m line background filters hits).1 =
      if ((applyFiltersLoop m line filters 0 hits
            (AFAcc.mk (-1) 0 0 [background])).2).hide_count > 0
      then (false, -1, background)
      else if ((applyFiltersLoop m line filters 0 hits
            (AFAcc.mk (-1) 0 0 [background])).2).show_count > 0
      then (true, ((applyFiltersLoop m line filters 0 hits
            (AFAcc.mk (-1) 0 0 [background])).2).first_show_idx,
          flatten ((applyFiltersLoop m line filters 0 hits
            (AFAcc.mk (-1) 0 0 [background])).2).segs)
      else (true, -1, background) := rfl
  by_cases hany : filters.any (fun f => f.hides && lineMatches m line f) = true
  · have hpos : 0 < ((applyFiltersLoop m line filters 0 hits
        (AFAcc.mk (-1) 0 0 [background])).2).hide_count := by
      rw [hloop.2]
      rcases List.any_eq_true.1 hany with ⟨f, hf, hfm⟩
      rw [Bool.and_eq_true] at hfm
      have hc := List.countP_pos.2 ⟨f, hf, hfm.2⟩
      simpa using hc
    rw [e, if_pos hpos, if_pos hany]
  · have hzero : ((applyFiltersLoop m line filters 0 hits
        (AFAcc.mk (-1) 0 0 [background])).2).hide_count = 0 := by
      rw [hloop.2]
      have : filters.countP (fun f => lineMatches m line f) = 0 := by
        rw [List.countP_eq_zero]
        intro f hf
        have hnot := fun hmf =>
          hany (List.any_eq_true.2 ⟨f, hf, by
            rw [Bool.and_eq_true]
            exact ⟨hall f hf, hmf⟩⟩)
        cases hmf : lineMatches m line f
        · simp [hmf]
        · exact absurd hmf hnot
      rw [this]
    have hshow : ((applyFiltersLoop m line filters 0 hits
        (AFAcc.mk (-1) 0 0 [background])).2).show_count = 0 := hloop.1
    rw [e, if_neg (by omega), if_neg (by omega), if_neg hany]

theorem qAddNonMatching_inf (lf llv : Int) (sl : SelectedLine) :
    qAddNonMatching (QState.mk [] (-1) lf llv) sl =
      (QState.mk [] (-1) lf (sl.line_index + 1), [sl]) := rfl

theorem rawFilterLoop_all_hiding {σ : Type} (m : Matcher)
    (sgrF : σ → String → List Segment × String × σ)
    (filters : List Filter) (line_min : Nat)
    (hall : ∀ f ∈ filters, f.hides = true) :
    ∀ (lines : List String) (i : Nat) (s : σ) (lf llv : Int) (hits : List Nat),
      (rawFilterLoop m sgrF filters line_min (List.enumFrom i lines) s
        (QState.mk [] (-1) lf llv) hits).1 =
      allHidingSelection m sgrF filters line_min s i lines := by
  intro lines
  induction lines with
  | nil => intro i s lf llv hits; rfl
  | cons l ls ih =>
    intro i s lf llv hits
    have henum : List.enumFrom i (l :: ls) = (i, l) :: List.enumFrom (i + 1) ls := rfl
    rw [henum]
    simp only [rawFilterLoop, allHidingSelection]
    by_cases hlm : i < line_min
    · rw [if_pos hlm, if_pos hlm]
      exact ih (i + 1) s lf llv hits
    · rw [if_neg hlm, if_neg hlm]
      have haf := apply_filters_all_hiding m (sgrF s (tabReplace l)).2.1
        (sgrF s (tabReplace l)).1 filters hits hall
      by_cases hany : filters.any
          (fun f => f.hides && lineMatches m (sgrF s (tabReplace l)).2.1 f) = true
      · rw [if_pos hany] at haf
        have h1 : (apply_filters m (sgrF s (tabReplace l)).2.1
            (sgrF s (tabReplace l)).1 filters hits).1.1 = false := by rw [haf]
        rw [h1, if_pos hany, if_neg Bool.false_ne_true]
        exact ih (i + 1) (sgrF s (tabReplace l)).2.2 lf llv _
      · rw [if_neg hany] at haf
        have h1 : (apply_filters m (sgrF s (tabReplace l)).2.1
            (sgrF s (tabReplace l)).1 filters hits).1.1 = true := by rw [haf]
        have h2 : (apply_filters m (sgrF s (tabReplace l)).2.1
            (sgrF s (tabReplace l)).1 filters hits).1.2.1 = -1 := by rw [haf]
        have h3 : (apply_filters m (sgrF s (tabReplace l)).2.1
            (sgrF s (tabReplace l)).1 filters hits).1.2.2 =
            (sgrF s (tabReplace l)).1 := by rw [haf]
        rw [h1, h2, h3, if_neg hany, if_pos rfl,
          if_neg (by omega : ¬ ((-1 : Int) ≥ 0)), qAddNonMatching_inf]
        simp only [List.singleton_append]
        rw [ih (i + 1) (sgrF s (tabReplace l)).2.2 lf ((i : Int) + 1) _]

/-- C6: when every filter of a non-empty filter list is a hiding filter,
`RawContent.filter` behaves as if the visibility mode were `ALL`, whatever
mode was requested: the selection is exactly the lines (from `line_min` on)
not matched by a hiding filter, in original order, with filter index `-1`
and their background segments, and no gap marker is produced
(`allHidingSelection` states that selection in the specification's words).
Filters carry at least one keyword, as the code asserts. -/
theorem rawFilter_all_hiding {σ : Type} (m : Matcher)
    (sgrF : σ → String → List Segment × String × σ) (s0 : σ)
    (filters : List Filter) (line_min : Nat) (mode : LineVisibility)
    (lines : List String)
    (hne : filters ≠ []) (hall : ∀ f ∈ filters, f.hides = true)
    (hkw : ∀ f ∈ filters, f.keywords ≠ []) :
    (rawFilter m sgrF s0 filters line_min mode lines).1 =
      allHidingSelection m sgrF filters line_min s0 0 lines ∧
    rawFilter m sgrF s0 filters line_min mode lines =
      rawFilter m sgrF s0 filters line_min LineVisibility.ALL lines := by
  have hcount : filters.countP (fun f => !f.hides) = 0 := by
    rw [List.countP_eq_zero]
    intro f hf
    simp [hall f hf]
  have henum : lines.enum = List.enumFrom 0 lines := rfl
  have hq : qInit LineVisibility.ALL = QState.mk [] (-1) 0 0 := rfl
  constructor
  · show (rawFilterLoop m sgrF filters line_min lines.enum s0
      (qInit (if filters.countP (fun f => !f.hides) > 0 then mode
        else LineVisibility.ALL)) (filters.map fun _ => 0)).1 = _
    rw [hcount, if_neg (by omega), henum, hq]
    exact rawFilterLoop_all_hiding m sgrF filters line_min hall lines 0 s0 0 0 _
  · show (rawFilterLoop m sgrF filters line_min lines.enum s0
      (qInit (if filters.countP (fun f => !f.hides) > 0 then mode
        else LineVisibility.ALL)) (filters.map fun _ => 0)) =
      (rawFilterLoop m sgrF filters line_min lines.enum s0
      (qInit (if filters.countP (fun f => !f.hides) > 0 then LineVisibility.ALL
        else LineVisibility.ALL)) (filters.map fun _ => 0))
    rw [hcount, if_neg (by omega), if_neg (by omega)]

/-- Witness for C6: one hiding filter on "m" over a three-line file; the
matching middle line is dropped, the others are selected with no marker. -/
theorem rawFilter_all_hiding_witness :
    ([Filter.mk false true ["m"]] ≠ []) ∧
    (∀ f ∈ [Filter.mk false true ["m"]], f.hides = true) ∧
    (∀ f ∈ [Filter.mk false true ["m"]], f.keywords ≠ []) ∧
    ((rawFilter literalMatcher sgrNone () [Filter.mk false true ["m"]] 0
        LineVisibility.CONTEXT_1 ["a", "m", "b"]).1 =
      allHidingSelection literalMatcher sgrNone [Filter.mk false true ["m"]] 0
        () 0 ["a", "m", "b"] ∧
      rawFilter literalMatcher sgrNone () [Filter.mk false true ["m"]] 0
          LineVisibility.CONTEXT_1 ["a", "m", "b"] =
        rawFilter literalMatcher sgrNone () [Filter.mk false true ["m"]] 0
          LineVisibility.ALL ["a", "m", "b"]) :=
  ⟨by decide, by decide, by decide,
    rawFilter_all_hiding literalMatcher sgrNone () [Filter.mk false true ["m"]]
      0 LineVisibility.CONTEXT_1 ["a", "m", "b"] (by decide) (by decide)
      (by decide)⟩

/-! ## Context-1 filtering of the 8-line file (C2) -/

/-- C2 counterexample: filtering the 8-line file with matches at indices 3
and 7 under CONTEXT_1 produces two synthetic gap markers, not exactly one:
the code also inserts a marker before index 2 because the first context
block starts strictly after the last visible index (initially 0). -/
theorem context1_gap_marker_count :
    ((rawFilter literalMatcher sgrNone () [Filter.mk false false ["m"]] 0
        LineVisibility.CONTEXT_1 ["x", "x", "x", "m", "x", "x", "x", "m"]).1.countP
      (fun sl => sl.line_index == -1)) = 2 := by
  decide

/-- C2 as amended: the selection consists of the lines with original
indices 2, 3, 4, 6, 7 in ascending order, plus exactly two synthetic gap
markers: one before index 2 and one between index 4 and index 6. -/
theorem context1_selection :
    (rawFilter literalMatcher sgrNone () [Filter.mk false false ["m"]] 0
        LineVisibility.CONTEXT_1 ["x", "x", "x", "m", "x", "x", "x", "m"]).1 =
      [rulerLine,
        SelectedLine.mk 2 (-1) "x" [],
        SelectedLine.mk 3 0 "m" [Segment.mk 0 1 0],
        SelectedLine.mk 4 (-1) "x" [],
        rulerLine,
        SelectedLine.mk 6 (-1) "x" [],
        SelectedLine.mk 7 0 "m" [Segment.mk 0 1 0]] := by
  decide

end Searchf
